import Mathlib

/-!
Verification development for the crjw-maps location-document generator.

The program reads a CSV of locations, and for each location produces a QR
code image and a rendered map image through a staleness-checked disk cache,
then composes one PDF page per location.

The repository contains two variants of the driver and of the location
helpers; this development embeds the later variant (the one with the
`-force` flag, the coordinate text line, and the unconditional label
block), which is the variant the rest of the code base agrees with.  The
historical page composer is embedded separately as `composePageOld`.

Machine integers do not occur; file timestamps are modelled as `Nat`
clock values.  The opaque collaborators (CSV decoding, the QR symbol
encoder, the tile renderer, PDF drawing primitives) are modelled at the
boundary the program observes: the QR encoder by the text/size/level it
is asked to encode, the map renderer by the marker list, pixel size and
tile provider it is asked to draw, and float formatting by a fixed
function of the numeric value.
-/

deriving instance DecidableEq for Except

namespace CrjwMaps

/-- One location record decoded from an input row.
Source: the `Location` struct (csv tags `number, name, altname, latitude,
longitude, comments`). -/
structure Location where
  Number : String
  Name : String
  AltName : String
  Latitude : Rat
  Longitude : Rat
  Comments : String
  deriving DecidableEq, Repr

/-- The part of the global config struct `c` that the cache helpers read:
cache directory, baseline timestamp `cDate`, and the `force`/`debug` flags. -/
structure Config where
  cache : String
  cDate : Nat
  force : Bool
  debug : Bool
  deriving DecidableEq, Repr

/-! ### Go `path/filepath` lexical path handling

`filepath.Join(a, b)` joins the non-empty elements with `/` and applies
`filepath.Clean`.  `Clean` is modelled at the character-list level:
split on `/`, process the components with a stack (dropping empty and
`.` components, resolving `..`), and re-join. -/

/-- Split a character list on `/`, keeping empty components. -/
def splitSlash : List Char → List (List Char)
  | [] => [[]]
  | ch :: cs =>
    if ch = '/' then [] :: splitSlash cs
    else
      match splitSlash cs with
      | [] => [[ch]]
      | g :: gs => (ch :: g) :: gs

/-- One step of the `filepath.Clean` stack processing: an empty or `.`
component vanishes; `..` pops a previous component, except that at the
root it vanishes and in a relative path it accumulates; any other
component is pushed.  `acc` is the reversed output stack. -/
def cleanStep (rooted : Bool) (acc : List (List Char)) (comp : List Char) :
    List (List Char) :=
  if comp = [] ∨ comp = ['.'] then acc
  else if comp = ['.', '.'] then
    match acc with
    | [] => if rooted then [] else [comp]
    | top :: more => if top = ['.', '.'] then comp :: acc else more
  else comp :: acc

/-- Stack processing of all components, as in `filepath.Clean`. -/
def cleanStack (rooted : Bool) (acc comps : List (List Char)) : List (List Char) :=
  comps.foldl (cleanStep rooted) acc

/-- Re-join cleaned components with `/` (as `strings.Join`). -/
def joinComps : List (List Char) → List Char
  | [] => []
  | [x] => x
  | x :: y :: ys => x ++ '/' :: joinComps (y :: ys)

/-- Whether the path is rooted (`path[0] == '/'`). -/
def isRooted : List Char → Bool
  | [] => false
  | c :: _ => if c = '/' then true else false

/-- Turn the cleaned component list back into a path: a rooted path keeps
its leading `/`; an empty result renders as `/` or `.`. -/
def renderComps (rooted : Bool) (l : List (List Char)) : List Char :=
  match rooted, l with
  | true, [] => ['/']
  | true, l => '/' :: joinComps l
  | false, [] => ['.']
  | false, l => joinComps l

/-- `filepath.Clean` on a character list. -/
def cleanChars (cs : List Char) : List Char :=
  renderComps (isRooted cs) (cleanStack (isRooted cs) [] (splitSlash cs)).reverse

/-- `filepath.Clean`. -/
def cleanPath (p : String) : String :=
  if p = "" then "." else String.mk (cleanChars p.data)

/-- `filepath.Join` for two elements (Unix separator). -/
def filepathJoin (a b : String) : String :=
  if a = "" ∧ b = "" then ""
  else if a = "" then cleanPath b
  else if b = "" then cleanPath a
  else cleanPath (a ++ "/" ++ b)

/-- Source: `filepath.Join(c.cache, fmt.Sprintf("%s-qrc.png", l.Number))`. -/
def qrPathOf (cache number : String) : String :=
  filepathJoin cache (number ++ "-qrc.png")

/-- Source: `filepath.Join(c.cache, fmt.Sprintf("%s-map.png", l.Number))`. -/
def mapPathOf (cache number : String) : String :=
  filepathJoin cache (number ++ "-map.png")

/-! ### Artifacts -/

/-- QR error-correction level (source: `qrcode.Medium` / `qrcode.High`). -/
inductive ECLevel where
  | medium
  | high
  deriving DecidableEq, Repr

/-- What the opaque QR encoder is asked to produce: the encoded text, the
pixel size `s` of the written `s`×`s` square image (`qrcode.WriteFile`),
and the error-correction level. -/
structure QRSpec where
  content : String
  size : Nat
  level : ECLevel
  deriving DecidableEq, Repr

/-- An RGBA colour literal. -/
structure RGBA where
  r : Nat
  g : Nat
  b : Nat
  a : Nat
  deriving DecidableEq, Repr

/-- One map marker (source: `sm.NewMarker(pos, colour, size)`). -/
structure Marker where
  lat : Rat
  lng : Rat
  col : RGBA
  msize : Rat
  deriving DecidableEq, Repr

/-- The configured tile source. -/
inductive TileProvider where
  | thunderforestLandscape
  | thunderforestOutdoors
  deriving DecidableEq, Repr

/-- What the opaque map renderer is asked to draw: pixel size, markers,
tile provider. -/
structure MapSpec where
  width : Nat
  height : Nat
  markers : List Marker
  tile : TileProvider
  deriving DecidableEq, Repr

/-- A cached artifact's content, at the granularity the program controls. -/
inductive Art where
  | qr (s : QRSpec)
  | map (m : MapSpec)
  deriving DecidableEq, Repr

/-! ### Filesystem model

A path maps to a regular file (with a modification time and content) or
to a path on which `os.Stat` fails with a non-not-exist error; missing
paths stat as not-exist.  `badWrite` lists paths on which writing fails
(the `err != nil` branch of `qrcode.WriteFile` / `gg.SavePNG`). -/

/-- A filesystem entry. -/
inductive Entry where
  | file (mtime : Nat) (art : Art)
  | statErr
  deriving DecidableEq, Repr

/-- The modelled filesystem state. -/
structure FS where
  entries : List (String × Entry)
  badWrite : List String
  deriving DecidableEq, Repr

/-- The empty filesystem (empty cache directory, all writes succeed). -/
def emptyFS : FS := ⟨[], []⟩

/-- First-match association-list lookup. -/
def fsFind : List (String × Entry) → String → Option Entry
  | [], _ => none
  | (q, e) :: rest, p => if q = p then some e else fsFind rest p

/-- Result of `os.Stat`. -/
inductive StatRes where
  | ok (mtime : Nat) (art : Art)
  | errNotExist
  | errOther
  deriving DecidableEq, Repr

/-- `os.Stat` on the modelled filesystem. -/
def fsStat (fs : FS) (p : String) : StatRes :=
  match fsFind fs.entries p with
  | some (.file m a) => .ok m a
  | some .statErr => .errOther
  | none => .errNotExist

/-- Write a file: sets the content and stamps the current clock as the
modification time; fails on the paths in `badWrite`. -/
def fsWrite (fs : FS) (p : String) (mtime : Nat) (a : Art) : Except String FS :=
  if p ∈ fs.badWrite then .error "write failed"
  else .ok ⟨(p, .file mtime a) :: fs.entries, fs.badWrite⟩

/-- The content an image-embedding call reads back from a path. -/
def contentAt (fs : FS) (p : String) : Option Art :=
  match fsFind fs.entries p with
  | some (.file _ a) => some a
  | _ => none

/-! ### Artifact generation -/

/-- Stand-in for Go `%f` float formatting; the development relies only on
the formatted text being a fixed function of the numeric value. -/
def fmtF (x : Rat) : String := toString x

/-- Source: `fmt.Sprintf("geo:%f,%f", l.Latitude, l.Longitude)`. -/
def geoUri (lat lng : Rat) : String := "geo:" ++ fmtF lat ++ "," ++ fmtF lng

/-- The QR artifact content written for a location (source: `qrcode.New(url,
qrcode.High)` followed by `qrcode.WriteFile(110, path)`). -/
def qrArtOf (l : Location) : Art :=
  .qr ⟨geoUri l.Latitude l.Longitude, 110, .high⟩

/-- Source: `color.RGBA{0xff, 0, 0, 0xff}`. -/
def colorRed : RGBA := ⟨0xff, 0, 0, 0xff⟩

/-- Source: `color.RGBA{0, 0, 0xff, 0xff}`. -/
def colorBlue : RGBA := ⟨0, 0, 0xff, 0xff⟩

/-- The fixed reference marker (source: `s2.LatLngFromDegrees(19.89830,
99.81805)` with the blue colour and size 32). -/
def khMarker : Marker := ⟨(19.8983 : Rat), (99.81805 : Rat), colorBlue, 32⟩

/-- The map artifact content written for a location (source: `getMap`,
later variant: 960×770, target marker red size 32, reference marker, the
Thunderforest Landscape tile provider). -/
def mapArtOf (l : Location) : Art :=
  .map ⟨960, 770, [⟨l.Latitude, l.Longitude, colorRed, 32⟩, khMarker],
        .thunderforestLandscape⟩

/-- The `old` flag computed identically by both helpers: it stays `true`
unless `os.Stat` succeeds and the modification time is strictly after the
baseline (`fi.ModTime().After(c.cDate)`). -/
def staleAt (cfg : Config) (fs : FS) (p : String) : Bool :=
  match fsStat fs p with
  | .ok m _ => if cfg.cDate < m then false else true
  | _ => true

/-- Embedding of `Location.getQRCode` (later variant).  Returns the path,
the filesystem, the clock, and whether generation ran; a failing write is
the `log.Fatal` branch and surfaces as `.error`.  Generation runs when
`old || c.force`.  (The opaque encoder `qrcode.New` is modelled as
succeeding; its failure branch is another `log.Fatal`.) -/
def getQRCode (cfg : Config) (fs : FS) (clock : Nat) (l : Location) :
    Except String (String × FS × Nat × Bool) :=
  if staleAt cfg fs (qrPathOf cfg.cache l.Number) || cfg.force then
    match fsWrite fs (qrPathOf cfg.cache l.Number) clock (qrArtOf l) with
    | .error e => .error e
    | .ok fs' => .ok (qrPathOf cfg.cache l.Number, fs', clock + 1, true)
  else
    .ok (qrPathOf cfg.cache l.Number, fs, clock, false)

/-- Embedding of `Location.getMap` (later variant).  Identical staleness
check, but the regeneration condition is `if old` alone: the force flag is
not consulted.  (The opaque renderer `ctx.Render` is modelled as
succeeding; its failure branch is another `log.Fatal`.) -/
def getMap (cfg : Config) (fs : FS) (clock : Nat) (l : Location) :
    Except String (String × FS × Nat × Bool) :=
  if staleAt cfg fs (mapPathOf cfg.cache l.Number) then
    match fsWrite fs (mapPathOf cfg.cache l.Number) clock (mapArtOf l) with
    | .error e => .error e
    | .ok fs' => .ok (mapPathOf cfg.cache l.Number, fs', clock + 1, true)
  else
    .ok (mapPathOf cfg.cache l.Number, fs, clock, false)

/-! ### Page composition -/

/-- The rotated label block: the content drawn between `TransformBegin` /
`TransformRotate(90, 5, pHeight-5)` and `TransformEnd` — the identifier in
a large font, the display name beside it, the grey coordinate line (absent
in the historical variant), and the QR image. -/
structure LabelBlock where
  number : String
  nameText : String
  coordsText : Option String
  qrPath : String
  qrImage : Option Art
  deriving DecidableEq, Repr

/-- One composed document page: the rotated label block (or nothing, when
a composer omits it) and the map image drawn last. -/
structure Page where
  label : Option LabelBlock
  mapPath : String
  mapImage : Option Art
  deriving DecidableEq, Repr

/-- One iteration of the driver loop: the page it appended plus whether
each resolve call invoked generation (the run trace the cache claims are
about). -/
structure Step where
  page : Page
  qrGen : Bool
  mapGen : Bool
  deriving DecidableEq, Repr

/-- The cp874 transliteration step `tr` — an opaque collaborator; modelled
as the identity on the abstract text. -/
def trCp874 (s : String) : String := s

/-- Source: `fmt.Sprintf("%f N, %f E", l.Latitude, l.Longitude)`. -/
def coordsTextOf (l : Location) : String :=
  fmtF l.Latitude ++ " N, " ++ fmtF l.Longitude ++ " E"

/-- Embedding of the page-composition body of the later driver variant:
the rotated block (number at size 40, `tr`-translated name, grey
coordinate text, QR image) is drawn unconditionally, then the map image
is drawn last. -/
def composePage (l : Location) (qrPath : String) (qrImage : Option Art)
    (mapPath : String) (mapImage : Option Art) : Page :=
  { label := some ⟨l.Number, trCp874 l.Name, some (coordsTextOf l), qrPath, qrImage⟩,
    mapPath := mapPath, mapImage := mapImage }

/-- Embedding of the page-composition body of the historical driver
variant: the whole rotated block (number, name, QR image; no coordinate
line) is guarded by `if loc.Name != ""` and omitted for an empty name. -/
def composePageOld (l : Location) (qrPath : String) (qrImage : Option Art)
    (mapPath : String) (mapImage : Option Art) : Page :=
  { label :=
      if l.Name = "" then none
      else some ⟨l.Number, trCp874 l.Name, none, qrPath, qrImage⟩,
    mapPath := mapPath, mapImage := mapImage }

/-! ### The driver loop and `main` -/

/-- The per-location loop of `main`: resolve the QR code, resolve the map,
compose the page (the PDF image calls read the files as they are after
both resolves).  A `log.Fatal` inside a resolve aborts the run; the steps
already composed are returned as the run trace together with the error. -/
def processLocs (cfg : Config) : List Location → FS → Nat →
    FS × Nat × List Step × Option String
  | [], fs, clock => (fs, clock, [], none)
  | l :: rest, fs, clock =>
    match getQRCode cfg fs clock l with
    | .error e => (fs, clock, [], some e)
    | .ok (qp, fs1, c1, gq) =>
      match getMap cfg fs1 c1 l with
      | .error e => (fs1, c1, [], some e)
      | .ok (mp, fs2, c2, gm) =>
        let page := composePage l qp (contentAt fs2 qp) mp (contentAt fs2 mp)
        match processLocs cfg rest fs2 c2 with
        | (fs3, c3, steps, err) => (fs3, c3, ⟨page, gq, gm⟩ :: steps, err)

/-- The command-line flags of the later variant. -/
structure Flags where
  inFile : String
  outFile : String
  cache : String
  debug : Bool
  force : Bool
  deriving DecidableEq, Repr

/-- The external facts one run observes: whether the input file opens,
what the CSV decoder returns, the input file's stat result (`none` =
stat failure), whether `os.MkdirAll` succeeds, the initial cache
filesystem and clock, and whether the final PDF write succeeds. -/
structure RunInput where
  openOk : Bool
  csv : Except String (List Location)
  inMtime : Option Nat
  mkdirOk : Bool
  fs : FS
  clock : Nat
  outputOk : Bool
  deriving DecidableEq, Repr

/-- The externally visible effects of one run. -/
structure Effects where
  cacheDirCreated : Bool
  fs : FS
  steps : List Step
  outputWritten : Bool
  deriving DecidableEq, Repr

/-- Embedding of `main` (later variant), in its exact order of effects:
check `-in`; open the input; decode the CSV (`log.Fatal` on error); stat
the input file to obtain the baseline `cDate` (`log.Fatal` on error);
create the cache directory; run the per-location loop; write the output
document.  Every `log.Fatal` is an `.error` result carrying the effects
performed so far. -/
def runMain (fl : Flags) (inp : RunInput) : Effects × Except String Unit :=
  let eff0 : Effects := ⟨false, inp.fs, [], false⟩
  if fl.inFile = "" then (eff0, .error "Missing input file")
  else if inp.openOk = false then (eff0, .error "Error opening file")
  else
    match inp.csv with
    | .error e => (eff0, .error ("Error parsing CSV: " ++ e))
    | .ok locations =>
      match inp.inMtime with
      | none => (eff0, .error "Error statting CSV")
      | some cDate =>
        if inp.mkdirOk = false then (eff0, .error "Failed to create cache")
        else
          let cfg : Config := ⟨fl.cache, cDate, fl.force, fl.debug⟩
          match processLocs cfg locations inp.fs inp.clock with
          | (fs', _, steps, some e) => (⟨true, fs', steps, false⟩, .error e)
          | (fs', _, steps, none) =>
            if inp.outputOk then (⟨true, fs', steps, true⟩, .ok ())
            else (⟨true, fs', steps, false⟩, .error "Error generating PDF")

/-! ### The external CSV decoder, modelled from the spec

Modelled from the spec: the tabular decoder (`gocsv.UnmarshalFile`, an
out-of-scope collaborator) decodes each row's named columns into a
`Location` and "fails with a ParseError if a row cannot be decoded into
the expected fields", e.g. on a non-numeric latitude. -/

/-- One raw input row (the six named columns as text). -/
structure RawRow where
  number : String
  name : String
  altname : String
  latitude : String
  longitude : String
  comments : String
  deriving DecidableEq, Repr

/-- Parse a decimal digit string into a natural number; fails on any
non-digit. -/
def parseNatAux : List Char → Nat → Option Nat
  | [], acc => some acc
  | ch :: cs, acc =>
    if ch.isDigit then parseNatAux cs (acc * 10 + (ch.toNat - 48)) else none

/-- Modelled from the spec: parse `[-]digits[.digits]` as a rational
number; anything else (e.g. a non-numeric latitude) fails. -/
def parseRat (s : String) : Option Rat :=
  let cs := s.data
  let sign : Bool := match cs with | '-' :: _ => true | _ => false
  let cs := match cs with | '-' :: rest => rest | _ => cs
  let ip := cs.takeWhile (fun ch => ch ≠ '.')
  let rest := cs.dropWhile (fun ch => ch ≠ '.')
  if ip = [] then none
  else
    match parseNatAux ip 0 with
    | none => none
    | some n =>
      match rest with
      | [] => some (if sign then -(n : Rat) else (n : Rat))
      | _ :: fp =>
        if fp = [] then none
        else
          match parseNatAux fp 0 with
          | none => none
          | some f =>
            let v : Rat := (n : Rat) + (f : Rat) / ((10 : Rat) ^ fp.length)
            some (if sign then -v else v)

/-- Modelled from the spec: decode one row, failing if a numeric column
does not parse. -/
def decodeRow (r : RawRow) : Except String Location :=
  match parseRat r.latitude, parseRat r.longitude with
  | some la, some lo => .ok ⟨r.number, r.name, r.altname, la, lo, r.comments⟩
  | _, _ => .error "cannot decode row"

/-- Modelled from the spec: decode all rows in order; the first bad row
fails the whole decode. -/
def decodeRows : List RawRow → Except String (List Location)
  | [] => .ok []
  | r :: rs =>
    match decodeRow r with
    | .error e => .error e
    | .ok l =>
      match decodeRows rs with
      | .error e => .error e
      | .ok ls => .ok (l :: ls)

/-! ### Concrete inputs used to instantiate the claims -/

/-- The location used in the C1 failing input. -/
def c1Loc : Location := ⟨"7", "", "", 1, 2, ""⟩

/-- The C1 configuration: baseline 10, force flag SET. -/
def c1Cfg : Config := ⟨"cache", 10, true, false⟩

/-- The C1 cache state: both artifacts exist and are fresh (mtime 11 >
baseline 10). -/
def c1FS : FS :=
  ⟨[(mapPathOf "cache" "7", .file 11 (mapArtOf c1Loc)),
    (qrPathOf "cache" "7", .file 11 (qrArtOf c1Loc))], []⟩

/-- The location used to instantiate C2. -/
def c2Loc : Location := ⟨"A", "", "", 1, 2, ""⟩

/-- The C3 flags: an input file named, everything else default. -/
def c3Flags : Flags := ⟨"in.csv", "", "cache", false, false⟩

/-- The malformed row: a non-numeric latitude. -/
def c3BadRow : RawRow := ⟨"1", "Name", "", "abc", "99.8", ""⟩

/-- The C3 run inputs: the file opens, the decoder rejects the malformed
row, everything else would succeed. -/
def c3Input : RunInput :=
  ⟨true, decodeRows [c3BadRow], some 5, true, emptyFS, 6, true⟩

/-- The location used in the C4 inputs. -/
def c4Loc : Location := ⟨"9", "n", "", 1, 2, ""⟩

/-- The C4 configuration (force clear, baseline 10). -/
def c4Cfg : Config := ⟨"cache", 10, false, false⟩

/-- The C4 cache state: `os.Stat` fails (with a non-not-exist error) on
both artifact paths. -/
def c4FS : FS :=
  ⟨[(qrPathOf "cache" "9", .statErr), (mapPathOf "cache" "9", .statErr)], []⟩

/-- The empty-named location used to instantiate C5. -/
def c5Loc : Location := ⟨"3", "", "", 1, 2, ""⟩

/-- The location used to instantiate C7. -/
def c7Loc : Location := ⟨"B", "nm", "", 1, 2, ""⟩

/-- The run invariant for cache reasoning: the clock is past the
baseline, no write fails, and every existing cache entry is a regular
file written strictly after the baseline and strictly before now. -/
def Inv (cfg : Config) (fs : FS) (clock : Nat) : Prop :=
  cfg.cDate < clock ∧ fs.badWrite = [] ∧
  ∀ p e, fsFind fs.entries p = some e →
    ∃ m a, e = .file m a ∧ cfg.cDate < m ∧ m < clock

/-- Two location records that agree on every rendering-relevant field
(identifier, display name, coordinates) — i.e. differ at most in the
alternate-name and comment columns. -/
def RenderEq (l1 l2 : Location) : Prop :=
  l1.Number = l2.Number ∧ l1.Name = l2.Name ∧
  l1.Latitude = l2.Latitude ∧ l1.Longitude = l2.Longitude

/-- The flags for the concrete full runs. -/
def c6Flags : Flags := ⟨"in.csv", "out.pdf", "cache", false, false⟩

/-- Two records in input order, as in the spec's concrete scenario. -/
def c6Locs : List Location :=
  [⟨"A1", "a", "", 1, 2, ""⟩, ⟨"B2", "b", "", 3, 4, ""⟩]

/-- The run inputs for the concrete two-record run: everything succeeds,
empty cache, baseline 0, clock 1. -/
def c6Input : RunInput := ⟨true, .ok c6Locs, some 0, true, emptyFS, 1, true⟩

/-- A record with alternate name and comment filled in. -/
def c9LocA : Location := ⟨"A", "n", "ALT", 1, 2, "a comment"⟩

/-- The same record with those two columns blanked. -/
def c9LocB : Location := ⟨"A", "n", "", 1, 2, ""⟩

/-- Run inputs containing `c9LocA`. -/
def c9InputA : RunInput := ⟨true, .ok [c9LocA], some 0, true, emptyFS, 1, true⟩

/-- Run inputs containing `c9LocB`. -/
def c9InputB : RunInput := ⟨true, .ok [c9LocB], some 0, true, emptyFS, 1, true⟩

/-- The two C10 records: same identifier, different coordinates. -/
def c10Li : Location := ⟨"A", "first", "", 1, 2, ""⟩

/-- The later duplicate-identifier record. -/
def c10Lj : Location := ⟨"A", "second", "", 3, 4, ""⟩

/-- The C10 configuration: force clear, baseline 0. -/
def c10Cfg : Config := ⟨"cache", 0, false, false⟩

/-! ### Branch characterizations of the two resolvers -/

/-- `old` is `false` exactly when the file exists and is strictly fresher
than the baseline. -/
theorem staleAt_false_iff (cfg : Config) (fs : FS) (p : String) :
    staleAt cfg fs p = false ↔
      ∃ m a, fsStat fs p = .ok m a ∧ cfg.cDate < m := by
  unfold staleAt
  cases h : fsStat fs p with
  | ok m a =>
    by_cases hm : cfg.cDate < m
    · constructor
      · intro _
        exact ⟨m, a, rfl, hm⟩
      · intro _
        simp [hm]
    · simp only [hm, if_neg, not_false_iff]
      constructor
      · intro hfalse; exact absurd hfalse (by simp)
      · rintro ⟨m', a', hok, hm'⟩
        injection hok with h1 h2
        subst h1
        exact absurd hm' hm
  | errNotExist =>
    constructor
    · intro hfalse; exact absurd hfalse (by simp)
    · rintro ⟨m', a', hok, _⟩; exact absurd hok (by simp)
  | errOther =>
    constructor
    · intro hfalse; exact absurd hfalse (by simp)
    · rintro ⟨m', a', hok, _⟩; exact absurd hok (by simp)

/-- A missing file is stale. -/
theorem staleAt_of_none (cfg : Config) (fs : FS) (p : String)
    (h : fsFind fs.entries p = none) : staleAt cfg fs p = true := by
  unfold staleAt fsStat
  rw [h]

/-- A path whose stat fails (non-not-exist error) counts as stale: the
error is swallowed and `old` stays `true`. -/
theorem staleAt_of_statErr (cfg : Config) (fs : FS) (p : String)
    (h : fsFind fs.entries p = some .statErr) : staleAt cfg fs p = true := by
  unfold staleAt fsStat
  rw [h]

/-- A fresh file (mtime strictly after the baseline) is not stale. -/
theorem staleAt_of_fresh (cfg : Config) (fs : FS) (p : String) (m : Nat) (a : Art)
    (h : fsFind fs.entries p = some (.file m a)) (hm : cfg.cDate < m) :
    staleAt cfg fs p = false := by
  unfold staleAt fsStat
  rw [h]
  simp [hm]

/-- Whatever branch is taken, a successful `getQRCode` returns the
deterministic QR path. -/
theorem getQRCode_path (cfg : Config) (fs : FS) (clock : Nat) (l : Location)
    (p : String) (fs' : FS) (c' : Nat) (g : Bool)
    (h : getQRCode cfg fs clock l = .ok (p, fs', c', g)) :
    p = qrPathOf cfg.cache l.Number := by
  unfold getQRCode at h
  split at h
  · rcases hw : fsWrite fs (qrPathOf cfg.cache l.Number) clock (qrArtOf l) with e | fs1
    · rw [hw] at h; exact absurd h (by simp)
    · rw [hw] at h
      simp only [Except.ok.injEq, Prod.mk.injEq] at h
      exact h.1.symm
  · simp only [Except.ok.injEq, Prod.mk.injEq] at h
    exact h.1.symm

/-- Whatever branch is taken, a successful `getMap` returns the
deterministic map path. -/
theorem getMap_path (cfg : Config) (fs : FS) (clock : Nat) (l : Location)
    (p : String) (fs' : FS) (c' : Nat) (g : Bool)
    (h : getMap cfg fs clock l = .ok (p, fs', c', g)) :
    p = mapPathOf cfg.cache l.Number := by
  unfold getMap at h
  split at h
  · rcases hw : fsWrite fs (mapPathOf cfg.cache l.Number) clock (mapArtOf l) with e | fs1
    · rw [hw] at h; exact absurd h (by simp)
    · rw [hw] at h
      simp only [Except.ok.injEq, Prod.mk.injEq] at h
      exact h.1.symm
  · simp only [Except.ok.injEq, Prod.mk.injEq] at h
    exact h.1.symm

/-- On a cache miss (path absent) with a writable path, `getQRCode`
generates: it writes the QR artifact stamped with the current clock. -/
theorem getQRCode_absent (cfg : Config) (fs : FS) (clock : Nat) (l : Location)
    (h : fsFind fs.entries (qrPathOf cfg.cache l.Number) = none)
    (hb : qrPathOf cfg.cache l.Number ∉ fs.badWrite) :
    getQRCode cfg fs clock l =
      .ok (qrPathOf cfg.cache l.Number,
           ⟨(qrPathOf cfg.cache l.Number, .file clock (qrArtOf l)) :: fs.entries,
            fs.badWrite⟩,
           clock + 1, true) := by
  unfold getQRCode
  rw [staleAt_of_none cfg fs _ h]
  simp [fsWrite, hb]

/-- On a fresh hit (file exists, modification time strictly after the
baseline) with the force flag clear, `getQRCode` reuses the file. -/
theorem getQRCode_fresh (cfg : Config) (fs : FS) (clock : Nat) (l : Location)
    (m : Nat) (a : Art)
    (h : fsFind fs.entries (qrPathOf cfg.cache l.Number) = some (.file m a))
    (hm : cfg.cDate < m) (hf : cfg.force = false) :
    getQRCode cfg fs clock l = .ok (qrPathOf cfg.cache l.Number, fs, clock, false) := by
  unfold getQRCode
  rw [staleAt_of_fresh cfg fs _ m a h hm, hf]
  simp

/-- On a cache miss (path absent) with a writable path, `getMap`
generates: it writes the map artifact stamped with the current clock. -/
theorem getMap_absent (cfg : Config) (fs : FS) (clock : Nat) (l : Location)
    (h : fsFind fs.entries (mapPathOf cfg.cache l.Number) = none)
    (hb : mapPathOf cfg.cache l.Number ∉ fs.badWrite) :
    getMap cfg fs clock l =
      .ok (mapPathOf cfg.cache l.Number,
           ⟨(mapPathOf cfg.cache l.Number, .file clock (mapArtOf l)) :: fs.entries,
            fs.badWrite⟩,
           clock + 1, true) := by
  unfold getMap
  rw [staleAt_of_none cfg fs _ h]
  simp [fsWrite, hb]

/-- On a fresh hit, `getMap` reuses the file — with no condition on the
force flag, since `getMap` never consults it. -/
theorem getMap_fresh (cfg : Config) (fs : FS) (clock : Nat) (l : Location)
    (m : Nat) (a : Art)
    (h : fsFind fs.entries (mapPathOf cfg.cache l.Number) = some (.file m a))
    (hm : cfg.cDate < m) :
    getMap cfg fs clock l = .ok (mapPathOf cfg.cache l.Number, fs, clock, false) := by
  unfold getMap
  rw [staleAt_of_fresh cfg fs _ m a h hm]
  simp

/-! ### Claim C1 — force flag and regeneration

The claim: generation runs iff the path is missing, or stale, or the
force flag is set — and in particular force regenerates the map image as
well.  `getQRCode` tests `old || c.force`, but `getMap` tests `old`
alone (its body even carries a stray `// Flag` comment where the check
was to go), while the flag's own registered description is "No cache
usage".  With the force flag set and a fresh cached map, the map is
reused, contradicting the claim, the specification, and the flag's
documentation: a code bug. -/




/-- C1: with the force flag set and both artifacts fresh, `getQRCode`
regenerates (honouring the flag) but `getMap` reuses the cached map and
performs no generation — the code contradicts the claimed (and
documented) force behaviour. -/
theorem c1_force_ignored_for_map :
    getMap c1Cfg c1FS 12 c1Loc = .ok (mapPathOf "cache" "7", c1FS, 12, false) ∧
    (∃ fs', getQRCode c1Cfg c1FS 12 c1Loc =
      .ok (qrPathOf "cache" "7", fs', 13, true)) := by
  exact ⟨rfl, ⟨_, rfl⟩⟩

/-! ### Claim C2 — cache freshness invariant -/

/-- C2: after either resolve returns successfully, the artifact at the
returned path has a modification time strictly greater than the baseline,
or the force flag was set.  The hypothesis `cfg.cDate < clock` says the
run's clock is past the baseline — the baseline is the input file's
modification time, read once at startup before any artifact work. -/
theorem c2_cache_freshness (cfg : Config) (fs : FS) (clock : Nat) (l : Location)
    (qp mp : String) (qfs mfs : FS) (qc mc : Nat) (qg mg : Bool)
    (hc : cfg.cDate < clock)
    (hq : getQRCode cfg fs clock l = .ok (qp, qfs, qc, qg))
    (hm : getMap cfg fs clock l = .ok (mp, mfs, mc, mg)) :
    ((∃ m a, fsStat qfs qp = .ok m a ∧ cfg.cDate < m) ∨ cfg.force = true) ∧
    ((∃ m a, fsStat mfs mp = .ok m a ∧ cfg.cDate < m) ∨ cfg.force = true) := by
  constructor
  · left
    unfold getQRCode at hq
    split at hq
    · rcases hw : fsWrite fs (qrPathOf cfg.cache l.Number) clock (qrArtOf l) with e | fs1
      · rw [hw] at hq; exact absurd hq (by simp)
      · rw [hw] at hq
        simp only [Except.ok.injEq, Prod.mk.injEq] at hq
        obtain ⟨hp, hfs, _, _⟩ := hq
        subst hp; subst hfs
        unfold fsWrite at hw
        split at hw
        · exact absurd hw (by simp)
        · simp only [Except.ok.injEq] at hw
          subst hw
          exact ⟨clock, qrArtOf l, by simp [fsStat, fsFind], hc⟩
    · rename_i hcond
      simp only [Except.ok.injEq, Prod.mk.injEq] at hq
      obtain ⟨hp, hfs, _, _⟩ := hq
      subst hp; subst hfs
      simp only [Bool.or_eq_true, not_or] at hcond
      obtain ⟨hstale, _⟩ := hcond
      have := (staleAt_false_iff cfg fs (qrPathOf cfg.cache l.Number)).mp
        (by revert hstale; cases staleAt cfg fs (qrPathOf cfg.cache l.Number) <;> simp)
      exact this
  · left
    unfold getMap at hm
    split at hm
    · rcases hw : fsWrite fs (mapPathOf cfg.cache l.Number) clock (mapArtOf l) with e | fs1
      · rw [hw] at hm; exact absurd hm (by simp)
      · rw [hw] at hm
        simp only [Except.ok.injEq, Prod.mk.injEq] at hm
        obtain ⟨hp, hfs, _, _⟩ := hm
        subst hp; subst hfs
        unfold fsWrite at hw
        split at hw
        · exact absurd hw (by simp)
        · simp only [Except.ok.injEq] at hw
          subst hw
          exact ⟨clock, mapArtOf l, by simp [fsStat, fsFind], hc⟩
    · rename_i hcond
      simp only [Except.ok.injEq, Prod.mk.injEq] at hm
      obtain ⟨hp, hfs, _, _⟩ := hm
      subst hp; subst hfs
      have := (staleAt_false_iff cfg fs (mapPathOf cfg.cache l.Number)).mp
        (by revert hcond; cases staleAt cfg fs (mapPathOf cfg.cache l.Number) <;> simp)
      exact this


/-- Witness for C2: a concrete run past the baseline (baseline 3, clock 5)
on an empty cache; both resolves generate and the written files carry
modification time 5 > 3. -/
theorem c2_cache_freshness_witness :
    (3 < 5) ∧
    (((∃ m a,
        fsStat ⟨[(qrPathOf "c" "A", .file 5 (qrArtOf c2Loc))], []⟩
            (qrPathOf "c" "A") = .ok m a ∧ 3 < m) ∨ (false : Bool) = true) ∧
     ((∃ m a,
        fsStat ⟨[(mapPathOf "c" "A", .file 5 (mapArtOf c2Loc))], []⟩
            (mapPathOf "c" "A") = .ok m a ∧ 3 < m) ∨ (false : Bool) = true)) :=
  ⟨by decide,
   c2_cache_freshness ⟨"c", 3, false, false⟩ emptyFS 5 c2Loc
     _ _ _ _ _ _ _ _ (by decide) rfl rfl⟩

/-! ### Claim C3 — effects of a malformed input row -/




/-- C3 counterexample: on the malformed row the run does abort with no
output document — but the cache directory is NOT created (the claim says
it is): the CSV decode `log.Fatal` precedes `os.MkdirAll` in `main`. -/
theorem c3_counterexample :
    (runMain c3Flags c3Input).1.cacheDirCreated = false ∧
    (runMain c3Flags c3Input).1.outputWritten = false ∧
    (runMain c3Flags c3Input).2 = .error "Error parsing CSV: cannot decode row" :=
  ⟨rfl, rfl, rfl⟩

/-- C3 amended: on any input whose CSV decode fails, the pipeline aborts
before producing any output document AND before creating the cache
directory; the cache filesystem is untouched and no page is composed. -/
theorem c3_parse_error_aborts_early (fl : Flags) (inp : RunInput) (e : String)
    (h : inp.csv = .error e) :
    (runMain fl inp).1.cacheDirCreated = false ∧
    (runMain fl inp).1.outputWritten = false ∧
    (runMain fl inp).1.fs = inp.fs ∧
    (runMain fl inp).1.steps = [] ∧
    ∃ msg, (runMain fl inp).2 = .error msg := by
  unfold runMain
  by_cases h1 : fl.inFile = "" <;> by_cases h2 : inp.openOk = false <;>
    simp [h1, h2, h]

/-- Witness for C3 amended, at the concrete malformed-latitude input. -/
theorem c3_parse_error_aborts_early_witness :
    (∃ e, c3Input.csv = .error e) ∧
    ((runMain c3Flags c3Input).1.cacheDirCreated = false ∧
     (runMain c3Flags c3Input).1.outputWritten = false ∧
     (runMain c3Flags c3Input).1.fs = c3Input.fs ∧
     (runMain c3Flags c3Input).1.steps = [] ∧
     ∃ msg, (runMain c3Flags c3Input).2 = .error msg) :=
  ⟨⟨"cannot decode row", rfl⟩,
   c3_parse_error_aborts_early c3Flags c3Input "cannot decode row" rfl⟩

/-! ### Claim C4 — are all errors fatal? -/




/-- C4 counterexample: a stat failure during a cache lookup does NOT
terminate the run — both resolvers return successfully (no fatal error)
and simply regenerate, contradicting the claim that every error in the
taxonomy, including a cache-lookup stat failure, is fatal. -/
theorem c4_counterexample :
    (∃ fs', getQRCode c4Cfg c4FS 12 c4Loc =
      .ok (qrPathOf "cache" "9", fs', 13, true)) ∧
    (∃ fs', getMap c4Cfg c4FS 12 c4Loc =
      .ok (mapPathOf "cache" "9", fs', 13, true)) :=
  ⟨⟨_, rfl⟩, ⟨_, rfl⟩⟩

/-- C4 amended: a filesystem stat failure during a cache lookup is
recovered locally — the artifact is treated as stale and regenerated, and
the resolve returns successfully; a generation-side failure (here: the
artifact write) remains fatal, with no retry. -/
theorem c4_stat_failure_not_fatal (cfg : Config) (fs : FS) (clock : Nat)
    (l : Location) :
    (fsFind fs.entries (qrPathOf cfg.cache l.Number) = some .statErr →
     qrPathOf cfg.cache l.Number ∉ fs.badWrite →
     getQRCode cfg fs clock l =
       .ok (qrPathOf cfg.cache l.Number,
            ⟨(qrPathOf cfg.cache l.Number, .file clock (qrArtOf l)) :: fs.entries,
             fs.badWrite⟩, clock + 1, true)) ∧
    (fsFind fs.entries (mapPathOf cfg.cache l.Number) = some .statErr →
     mapPathOf cfg.cache l.Number ∉ fs.badWrite →
     getMap cfg fs clock l =
       .ok (mapPathOf cfg.cache l.Number,
            ⟨(mapPathOf cfg.cache l.Number, .file clock (mapArtOf l)) :: fs.entries,
             fs.badWrite⟩, clock + 1, true)) ∧
    (fsFind fs.entries (qrPathOf cfg.cache l.Number) = some .statErr →
     qrPathOf cfg.cache l.Number ∈ fs.badWrite →
     getQRCode cfg fs clock l = .error "write failed") := by
  refine ⟨?_, ?_, ?_⟩
  · intro h hb
    unfold getQRCode
    rw [staleAt_of_statErr cfg fs _ h]
    simp [fsWrite, hb]
  · intro h hb
    unfold getMap
    rw [staleAt_of_statErr cfg fs _ h]
    simp [fsWrite, hb]
  · intro h hb
    unfold getQRCode
    rw [staleAt_of_statErr cfg fs _ h]
    simp [fsWrite, hb]

/-- Witness for C4 amended, at the concrete stat-failing cache state. -/
theorem c4_stat_failure_not_fatal_witness :
    getQRCode c4Cfg c4FS 12 c4Loc =
      .ok (qrPathOf "cache" "9",
           ⟨(qrPathOf "cache" "9", .file 12 (qrArtOf c4Loc)) :: c4FS.entries,
            c4FS.badWrite⟩, 13, true) :=
  (c4_stat_failure_not_fatal c4Cfg c4FS 12 c4Loc).1 rfl (by decide)

/-! ### Claim C5 — empty display name never skips the label block -/

/-- C5: the (current) page composer always emits the rotated label block
— identifier, translated name, coordinate text, QR image — and with an
empty display name the block is still drawn with the name rendered as the
empty string, never omitted. -/
theorem c5_empty_name_still_drawn (l : Location) (qp : String) (qi : Option Art)
    (mp : String) (mi : Option Art) :
    (composePage l qp qi mp mi).label =
      some ⟨l.Number, trCp874 l.Name, some (coordsTextOf l), qp, qi⟩ ∧
    (l.Name = "" →
      (composePage l qp qi mp mi).label =
        some ⟨l.Number, "", some (coordsTextOf l), qp, qi⟩) := by
  refine ⟨rfl, ?_⟩
  intro h
  simp [composePage, trCp874, h]


/-- Witness for C5 at a concrete location with an empty display name. -/
theorem c5_empty_name_still_drawn_witness :
    c5Loc.Name = "" ∧
    (composePage c5Loc "q.png" none "m.png" none).label =
      some ⟨"3", "", some (coordsTextOf c5Loc), "q.png", none⟩ :=
  ⟨rfl, (c5_empty_name_still_drawn c5Loc "q.png" none "m.png" none).2 rfl⟩

/-! ### Claim C7 — the code-image generator's contract -/

/-- C7: whenever `getQRCode` generates, it writes — at the deterministic
"code"-kind cache path — a square raster of fixed pixel size 110
(`qrcode.WriteFile(110, path)` writes a 110×110 image) at the fixed
error-correction level High, encoding the `geo:` URI built from the
location's latitude and longitude. -/
theorem c7_code_image_contract (cfg : Config) (fs : FS) (clock : Nat)
    (l : Location) (p : String) (fs' : FS) (c' : Nat)
    (h : getQRCode cfg fs clock l = .ok (p, fs', c', true)) :
    p = qrPathOf cfg.cache l.Number ∧
    fsStat fs' p = .ok clock (.qr ⟨geoUri l.Latitude l.Longitude, 110, .high⟩) ∧
    geoUri l.Latitude l.Longitude =
      "geo:" ++ fmtF l.Latitude ++ "," ++ fmtF l.Longitude := by
  unfold getQRCode at h
  split at h
  · rcases hw : fsWrite fs (qrPathOf cfg.cache l.Number) clock (qrArtOf l) with e | fs1
    · rw [hw] at h; exact absurd h (by simp)
    · rw [hw] at h
      simp only [Except.ok.injEq, Prod.mk.injEq] at h
      obtain ⟨hp, hfs, _, _⟩ := h
      subst hp; subst hfs
      unfold fsWrite at hw
      split at hw
      · exact absurd hw (by simp)
      · simp only [Except.ok.injEq] at hw
        subst hw
        exact ⟨rfl, by simp [fsStat, fsFind, qrArtOf], rfl⟩
  · simp only [Except.ok.injEq, Prod.mk.injEq] at h
    exact absurd h.2.2.2 (by simp)


/-- Witness for C7: on an empty cache, `getQRCode` generates and the
written artifact is exactly the 110-pixel High-level QR of the location's
`geo:` URI, at the "code"-kind cache path. -/
theorem c7_code_image_contract_witness :
    (∃ fs', getQRCode ⟨"cache", 3, false, false⟩ emptyFS 5 c7Loc =
      .ok (qrPathOf "cache" "B", fs', 6, true)) ∧
    (qrPathOf "cache" "B" = qrPathOf "cache" c7Loc.Number ∧
     fsStat ⟨[(qrPathOf "cache" "B", .file 5 (qrArtOf c7Loc))], []⟩
         (qrPathOf "cache" "B") =
       .ok 5 (.qr ⟨geoUri c7Loc.Latitude c7Loc.Longitude, 110, .high⟩) ∧
     geoUri c7Loc.Latitude c7Loc.Longitude =
       "geo:" ++ fmtF c7Loc.Latitude ++ "," ++ fmtF c7Loc.Longitude) :=
  ⟨⟨_, rfl⟩,
   c7_code_image_contract ⟨"cache", 3, false, false⟩ emptyFS 5 c7Loc
     (qrPathOf "cache" "B") _ 6 rfl⟩

/-! ### Lexical path lemmas -/

/-- Unfolding `splitSlash` at a separator. -/
theorem splitSlash_cons_slash (cs : List Char) :
    splitSlash ('/' :: cs) = [] :: splitSlash cs := rfl

/-- Unfolding `splitSlash` at a non-separator head. -/
theorem splitSlash_cons_ne (c : Char) (cs : List Char) (h : ¬ c = '/')
    (g : List Char) (gs : List (List Char)) (hs : splitSlash cs = g :: gs) :
    splitSlash (c :: cs) = (c :: g) :: gs := by
  unfold splitSlash
  rw [if_neg h, hs]

/-- `splitSlash` never returns the empty list. -/
theorem splitSlash_ne_nil : ∀ cs : List Char, splitSlash cs ≠ [] := by
  intro cs
  induction cs with
  | nil => simp [splitSlash]
  | cons c cs ih =>
    by_cases h : c = '/'
    · subst h
      rw [splitSlash_cons_slash]
      simp
    · rcases hs : splitSlash cs with _ | ⟨g, gs⟩
      · exact absurd hs ih
      · rw [splitSlash_cons_ne c cs h g gs hs]
        simp

/-- Splitting distributes over a separator occurrence. -/
theorem splitSlash_append : ∀ a b : List Char,
    splitSlash (a ++ '/' :: b) = splitSlash a ++ splitSlash b := by
  intro a b
  induction a with
  | nil =>
    show splitSlash ('/' :: b) = splitSlash [] ++ splitSlash b
    rw [splitSlash_cons_slash]
    rfl
  | cons c cs ih =>
    show splitSlash (c :: (cs ++ '/' :: b)) = _
    by_cases h : c = '/'
    · subst h
      rw [splitSlash_cons_slash, ih, splitSlash_cons_slash]
      rfl
    · rcases hs : splitSlash cs with _ | ⟨g, gs⟩
      · exact absurd hs (splitSlash_ne_nil cs)
      · rw [splitSlash_cons_ne c (cs ++ '/' :: b) h g (gs ++ splitSlash b)
              (by rw [ih, hs]; rfl)]
        rw [splitSlash_cons_ne c cs h g gs hs]
        rfl

/-- A separator-free character list is a single component. -/
theorem splitSlash_noSlash : ∀ a : List Char, '/' ∉ a → splitSlash a = [a] := by
  intro a
  induction a with
  | nil => intro _; rfl
  | cons c cs ih =>
    intro h
    simp only [List.mem_cons, not_or] at h
    obtain ⟨h1, h2⟩ := h
    have hc : ¬ c = '/' := fun hh => h1 hh.symm
    rw [splitSlash_cons_ne c cs hc cs [] (ih h2)]

/-- Joining after appending a final component. -/
theorem joinComps_append_single : ∀ (xs : List (List Char)) (f : List Char),
    joinComps (xs ++ [f]) = if xs = [] then f else joinComps xs ++ '/' :: f := by
  intro xs
  induction xs with
  | nil => intro f; simp [joinComps]
  | cons x xs ih =>
    intro f
    cases xs with
    | nil => simp [joinComps]
    | cons y ys =>
      have h2 := ih f
      rw [if_neg (by simp)] at h2
      show joinComps (x :: ((y :: ys) ++ [f])) = _
      rw [if_neg (by simp)]
      show joinComps (x :: y :: (ys ++ [f])) = _
      unfold joinComps
      rw [show (y :: (ys ++ [f])) = ((y :: ys) ++ [f]) from rfl, h2]
      simp [joinComps, List.append_assoc]

/-- A plain component (not empty, not a dot segment) is pushed. -/
theorem cleanStep_plain (r : Bool) (acc : List (List Char)) (comp : List Char)
    (h0 : comp ≠ []) (h1 : comp ≠ ['.']) (h2 : comp ≠ ['.', '.']) :
    cleanStep r acc comp = comp :: acc := by
  unfold cleanStep
  rw [if_neg (by simp [h0, h1]), if_neg h2]

/-- Rootedness of a nonempty path ignores anything appended. -/
theorem isRooted_append (cs x : List Char) (h : cs ≠ []) :
    isRooted (cs ++ x) = isRooted cs := by
  cases cs with
  | nil => exact absurd rfl h
  | cons c cs => rfl

/-- Rendering after appending a final component: the final component
survives, preceded by a prefix that does not depend on it. -/
theorem renderComps_append_single (r : Bool) (xs : List (List Char))
    (f : List Char) :
    renderComps r (xs ++ [f]) =
      ((if r = true then ['/'] else []) ++
       (if xs = [] then [] else joinComps xs ++ ['/'])) ++ f := by
  cases r with
  | false =>
    cases xs with
    | nil => simp [renderComps, joinComps]
    | cons y ys =>
      have h1 : renderComps false ((y :: ys) ++ [f]) =
          joinComps ((y :: ys) ++ [f]) := rfl
      rw [h1, joinComps_append_single, if_neg (by simp)]
      simp [List.append_assoc]
  | true =>
    cases xs with
    | nil => simp [renderComps, joinComps]
    | cons y ys =>
      have h1 : renderComps true ((y :: ys) ++ [f]) =
          '/' :: joinComps ((y :: ys) ++ [f]) := rfl
      rw [h1, joinComps_append_single, if_neg (by simp)]
      simp [List.append_assoc]

/-- The factoring lemma: cleaning `cs ++ "/" ++ f`, for a separator-free
non-dot final component `f`, yields a string of the form `g ++ f` where
the prefix `g` does not depend on `f`.  This is the heart of the
collision analysis: the final component always survives `Clean`. -/
theorem cleanChars_factor (cs : List Char) :
    ∃ g : List Char, ∀ f : List Char,
      f ≠ [] → f ≠ ['.'] → f ≠ ['.', '.'] → '/' ∉ f →
      cleanChars (cs ++ '/' :: f) = g ++ f := by
  refine ⟨(if isRooted (cs ++ ['/']) = true then ['/'] else []) ++
    (if (cleanStack (isRooted (cs ++ ['/'])) [] (splitSlash cs)).reverse = []
     then []
     else joinComps (cleanStack (isRooted (cs ++ ['/'])) []
            (splitSlash cs)).reverse ++ ['/']), ?_⟩
  intro f h0 h1 h2 h4
  unfold cleanChars
  have hr : isRooted (cs ++ '/' :: f) = isRooted (cs ++ ['/']) := by
    cases cs <;> rfl
  rw [hr, splitSlash_append, splitSlash_noSlash f h4]
  rw [show cleanStack (isRooted (cs ++ ['/'])) [] (splitSlash cs ++ [f]) =
        cleanStep (isRooted (cs ++ ['/']))
          (cleanStack (isRooted (cs ++ ['/'])) [] (splitSlash cs)) f from
        List.foldl_append ..]
  rw [cleanStep_plain _ _ f h0 h1 h2]
  rw [List.reverse_cons, renderComps_append_single]

/-- Cleaning a separator-free path that is not empty and not a dot
segment leaves it unchanged. -/
theorem cleanChars_noSlash (b : List Char) (h0 : b ≠ []) (h1 : b ≠ ['.'])
    (h2 : b ≠ ['.', '.']) (h4 : '/' ∉ b) : cleanChars b = b := by
  unfold cleanChars
  rw [splitSlash_noSlash b h4]
  have hr : isRooted b = false := by
    cases b with
    | nil => rfl
    | cons c cs =>
      have hc : ¬ c = '/' := by
        intro hh
        exact h4 (by rw [hh]; exact List.mem_cons_self ..)
      simp [isRooted, hc]
  rw [hr]
  have hst : cleanStack false [] [b] = [b] := by
    unfold cleanStack
    simp only [List.foldl]
    rw [cleanStep_plain false [] b h0 h1 h2]
  rw [hst]
  simp [renderComps, joinComps]

/-- Two strings with equal character data are equal. -/
theorem str_data_inj {s t : String} (h : s.data = t.data) : s = t := by
  cases s with
  | mk d1 =>
    cases t with
    | mk d2 =>
      rw [show (String.mk d1).data = d1 from rfl,
          show (String.mk d2).data = d2 from rfl] at h
      rw [h]

/-- A filename of the form `id ++ sfx` for a long separator-free suffix is
a plain component whenever the identifier is separator-free. -/
theorem filename_good (n : String) (sfx : List Char) (hlen : 2 < sfx.length)
    (hs : '/' ∉ sfx) (hn : '/' ∉ n.data) :
    (n.data ++ sfx) ≠ [] ∧ (n.data ++ sfx) ≠ ['.'] ∧
    (n.data ++ sfx) ≠ ['.', '.'] ∧ '/' ∉ (n.data ++ sfx) := by
  refine ⟨?_, ?_, ?_, ?_⟩
  · intro h
    have hh := congrArg List.length h
    simp only [List.length_append, List.length_nil] at hh
    omega
  · intro h
    have hh := congrArg List.length h
    simp only [List.length_append, List.length_cons, List.length_nil] at hh
    omega
  · intro h
    have hh := congrArg List.length h
    simp only [List.length_append, List.length_cons, List.length_nil] at hh
    omega
  · simp [List.mem_append, hn, hs]

/-- Appending a nonempty suffix gives a nonempty string. -/
theorem append_sfx_ne_empty (n sfx : String) (h : sfx.data ≠ []) :
    (n ++ sfx) ≠ "" := by
  intro hh
  have hd := congrArg String.data hh
  rw [String.data_append] at hd
  rcases List.append_eq_nil.mp hd with ⟨_, h2⟩
  exact h h2

/-- `filepath.Join` of two nonempty elements cleans their
slash-separated concatenation. -/
theorem filepathJoin_data (a b : String) (ha : a ≠ "") (hb : b ≠ "") :
    filepathJoin a b = String.mk (cleanChars (a.data ++ '/' :: b.data)) := by
  unfold filepathJoin
  rw [if_neg (fun hh => ha hh.1), if_neg ha, if_neg hb]
  have hd : (a ++ "/" ++ b).data = a.data ++ '/' :: b.data := by
    rw [String.data_append, String.data_append]
    rw [show ("/" : String).data = ['/'] from rfl, List.append_assoc]
    rfl
  unfold cleanPath
  rw [if_neg ?hne, hd]
  case hne =>
    intro h
    have hh := congrArg String.data h
    rw [hd] at hh
    rcases List.append_eq_nil.mp hh with ⟨_, h2⟩
    exact absurd h2 (by simp)

/-- For a fixed cache directory there is a fixed prefix `g` such that
joining any separator-free filename resolves to `g ++ filename`. -/
theorem join_factor (cache : String) :
    ∃ g : List Char, ∀ n sfx : String,
      '/' ∉ n.data → 2 < sfx.data.length → '/' ∉ sfx.data →
      (filepathJoin cache (n ++ sfx)).data = g ++ (n.data ++ sfx.data) := by
  by_cases hc : cache = ""
  · subst hc
    refine ⟨[], ?_⟩
    intro n sfx hn hlen hs
    obtain ⟨g0, g1, g2, g3⟩ := filename_good n sfx.data hlen hs hn
    have hbne : (n ++ sfx) ≠ "" := append_sfx_ne_empty n sfx (by
      intro h
      rw [h] at hlen
      simp at hlen)
    unfold filepathJoin
    rw [if_neg (fun hh => hbne hh.2), if_pos rfl]
    unfold cleanPath
    rw [if_neg hbne]
    rw [show (String.mk (cleanChars (n ++ sfx).data)).data =
          cleanChars (n ++ sfx).data from rfl]
    rw [String.data_append]
    rw [cleanChars_noSlash _ g0 g1 g2 g3]
    rfl
  · obtain ⟨g, hg⟩ := cleanChars_factor cache.data
    refine ⟨g, ?_⟩
    intro n sfx hn hlen hs
    obtain ⟨g0, g1, g2, g3⟩ := filename_good n sfx.data hlen hs hn
    have hbne : (n ++ sfx) ≠ "" := append_sfx_ne_empty n sfx (by
      intro h
      rw [h] at hlen
      simp at hlen)
    rw [filepathJoin_data cache (n ++ sfx) hc hbne]
    rw [show (String.mk (cleanChars (cache.data ++ '/' :: (n ++ sfx).data))).data =
          cleanChars (cache.data ++ '/' :: (n ++ sfx).data) from rfl]
    rw [String.data_append]
    exact hg (n.data ++ sfx.data) g0 g1 g2 g3

/-- Every character list splits at its last separator (if any) into a
prefix and a separator-free tail. -/
theorem last_slash_decomp : ∀ l : List Char,
    '/' ∉ l ∨ ∃ a b, l = a ++ '/' :: b ∧ '/' ∉ b := by
  intro l
  induction l with
  | nil => left; simp
  | cons c cs ih =>
    rcases ih with h | ⟨a, b, hab, hb⟩
    · by_cases hc : c = '/'
      · subst hc
        right
        exact ⟨[], cs, rfl, h⟩
      · left
        intro hmem
        rcases List.mem_cons.mp hmem with h1 | h2
        · exact hc h1.symm
        · exact h h2
    · right
      exact ⟨c :: a, b, by rw [hab]; rfl, hb⟩

/-- For any cache directory and any identifier (separator-free or not),
the resolved path factors as a fixed prefix plus the final separator-free
tail plus the suffix: the suffix always survives `Clean`. -/
theorem join_factor_any (cache n : String) :
    ∃ G t : List Char, ∀ sfx : String,
      2 < sfx.data.length → '/' ∉ sfx.data →
      (filepathJoin cache (n ++ sfx)).data = (G ++ t) ++ sfx.data := by
  rcases last_slash_decomp n.data with hn | ⟨a, b, hab, hb⟩
  · obtain ⟨g, hg⟩ := join_factor cache
    refine ⟨g, n.data, ?_⟩
    intro sfx hlen hs
    rw [hg n sfx hn hlen hs, List.append_assoc]
  · by_cases hc : cache = ""
    · subst hc
      obtain ⟨g, hg⟩ := cleanChars_factor a
      refine ⟨g, b, ?_⟩
      intro sfx hlen hs
      have hbne : (n ++ sfx) ≠ "" := append_sfx_ne_empty n sfx (by
        intro h
        rw [h] at hlen
        simp at hlen)
      have hgood : (b ++ sfx.data) ≠ [] ∧ (b ++ sfx.data) ≠ ['.'] ∧
          (b ++ sfx.data) ≠ ['.', '.'] ∧ '/' ∉ (b ++ sfx.data) := by
        have := filename_good (String.mk b) sfx.data hlen hs hb
        exact this
      obtain ⟨g0, g1, g2, g3⟩ := hgood
      unfold filepathJoin
      rw [if_neg (fun hh => hbne hh.2), if_pos rfl]
      unfold cleanPath
      rw [if_neg hbne]
      rw [show (String.mk (cleanChars (n ++ sfx).data)).data =
            cleanChars (n ++ sfx).data from rfl]
      rw [String.data_append, hab]
      rw [show (a ++ '/' :: b) ++ sfx.data = a ++ '/' :: (b ++ sfx.data) by
        rw [List.append_assoc]; rfl]
      rw [hg (b ++ sfx.data) g0 g1 g2 g3, List.append_assoc]
    · obtain ⟨g, hg⟩ := cleanChars_factor (cache.data ++ '/' :: a)
      refine ⟨g, b, ?_⟩
      intro sfx hlen hs
      have hbne : (n ++ sfx) ≠ "" := append_sfx_ne_empty n sfx (by
        intro h
        rw [h] at hlen
        simp at hlen)
      have hgood := filename_good (String.mk b) sfx.data hlen hs hb
      obtain ⟨g0, g1, g2, g3⟩ := hgood
      rw [filepathJoin_data cache (n ++ sfx) hc hbne]
      rw [show (String.mk (cleanChars
            (cache.data ++ '/' :: (n ++ sfx).data))).data =
            cleanChars (cache.data ++ '/' :: (n ++ sfx).data) from rfl]
      rw [String.data_append, hab]
      rw [show cache.data ++ '/' :: ((a ++ '/' :: b) ++ sfx.data) =
            (cache.data ++ '/' :: a) ++ '/' :: (b ++ sfx.data) by
        simp [List.append_assoc]]
      rw [hg (b ++ sfx.data) g0 g1 g2 g3, List.append_assoc]

/-- The two artifact kinds of one identifier never resolve to the same
path: the `-qrc.png` / `-map.png` endings survive cleaning. -/
theorem qrPathOf_ne_mapPathOf (cache n : String) :
    qrPathOf cache n ≠ mapPathOf cache n := by
  obtain ⟨G, t, hG⟩ := join_factor_any cache n
  intro h
  have hd := congrArg String.data h
  unfold qrPathOf mapPathOf at hd
  rw [hG "-qrc.png" (by decide) (by decide),
      hG "-map.png" (by decide) (by decide)] at hd
  have := List.append_cancel_left hd
  exact absurd this (by decide)

/-! ### Claim C8 — determinism and injectivity of cache paths -/

/-- C8 counterexample: resolution is deterministic, but two DISTINCT
identifiers can collide: `filepath.Join` runs `filepath.Clean`, so the
identifiers `"x"` and `"./x"` resolve to the same path
`cache/x-qrc.png`. -/
theorem c8_counterexample :
    ("x" : String) ≠ "./x" ∧ qrPathOf "cache" "x" = qrPathOf "cache" "./x" :=
  ⟨by decide, rfl⟩

/-- C8 amended: path resolution is a deterministic pure function of the
cache directory, artifact kind and identifier, and for identifiers free
of the path separator `/` two distinct identifiers never collide — within
each kind and across the two kinds.  (Identifiers containing separators
can collide after lexical path cleaning, e.g. `"./x"` vs `"x"`.) -/
theorem c8_path_determinism_injectivity (cache n1 n2 : String)
    (h1 : '/' ∉ n1.data) (h2 : '/' ∉ n2.data) (hne : n1 ≠ n2) :
    qrPathOf cache n1 ≠ qrPathOf cache n2 ∧
    mapPathOf cache n1 ≠ mapPathOf cache n2 ∧
    qrPathOf cache n1 ≠ mapPathOf cache n2 ∧
    mapPathOf cache n1 ≠ qrPathOf cache n2 := by
  obtain ⟨g, hg⟩ := join_factor cache
  have e1 := hg n1 "-qrc.png" h1 (by decide) (by decide)
  have e2 := hg n2 "-qrc.png" h2 (by decide) (by decide)
  have e3 := hg n1 "-map.png" h1 (by decide) (by decide)
  have e4 := hg n2 "-map.png" h2 (by decide) (by decide)
  have hlen : n1.data.length + 8 = n2.data.length + 8 →
      n1.data.length = n2.data.length := by omega
  refine ⟨?_, ?_, ?_, ?_⟩
  · intro h
    have hd := congrArg String.data h
    unfold qrPathOf at hd
    rw [e1, e2] at hd
    have h5 := List.append_cancel_left hd
    have h6 := List.append_cancel_right h5
    exact hne (str_data_inj h6)
  · intro h
    have hd := congrArg String.data h
    unfold mapPathOf at hd
    rw [e3, e4] at hd
    have h5 := List.append_cancel_left hd
    have h6 := List.append_cancel_right h5
    exact hne (str_data_inj h6)
  · intro h
    have hd := congrArg String.data h
    unfold qrPathOf mapPathOf at hd
    rw [e1, e4] at hd
    have h5 := List.append_cancel_left hd
    have h7 := congrArg List.length h5
    simp only [List.length_append] at h7
    have h8 := (List.append_inj h5 (by
      rw [show ("-qrc.png" : String).data.length = 8 from rfl,
          show ("-map.png" : String).data.length = 8 from rfl] at h7
      exact hlen h7)).2
    exact absurd h8 (by decide)
  · intro h
    have hd := congrArg String.data h
    unfold qrPathOf mapPathOf at hd
    rw [e3, e2] at hd
    have h5 := List.append_cancel_left hd
    have h7 := congrArg List.length h5
    simp only [List.length_append] at h7
    have h8 := (List.append_inj h5 (by
      rw [show ("-qrc.png" : String).data.length = 8 from rfl,
          show ("-map.png" : String).data.length = 8 from rfl] at h7
      exact hlen h7)).2
    exact absurd h8 (by decide)

/-- Witness for C8 amended at the spec's concrete identifiers `A1`, `B2`. -/
theorem c8_path_determinism_injectivity_witness :
    ('/' ∉ ("A1" : String).data ∧ '/' ∉ ("B2" : String).data ∧
     ("A1" : String) ≠ "B2") ∧
    (qrPathOf "cache" "A1" ≠ qrPathOf "cache" "B2" ∧
     mapPathOf "cache" "A1" ≠ mapPathOf "cache" "B2" ∧
     qrPathOf "cache" "A1" ≠ mapPathOf "cache" "B2" ∧
     mapPathOf "cache" "A1" ≠ qrPathOf "cache" "B2") :=
  ⟨⟨by decide, by decide, by decide⟩,
   c8_path_determinism_injectivity "cache" "A1" "B2"
     (by decide) (by decide) (by decide)⟩

/-! ### The driver loop, step by step -/

/-- Unfolding one loop iteration when both resolves succeed. -/
theorem processLocs_cons_eq (cfg : Config) (l : Location) (rest : List Location)
    (fs : FS) (clock : Nat) (qp : String) (fs1 : FS) (c1 : Nat) (gq : Bool)
    (mp : String) (fs2 : FS) (c2 : Nat) (gm : Bool)
    (fs3 : FS) (c3 : Nat) (steps3 : List Step) (err3 : Option String)
    (hq : getQRCode cfg fs clock l = .ok (qp, fs1, c1, gq))
    (hm : getMap cfg fs1 c1 l = .ok (mp, fs2, c2, gm))
    (hp : processLocs cfg rest fs2 c2 = (fs3, c3, steps3, err3)) :
    processLocs cfg (l :: rest) fs clock =
      (fs3, c3,
       ⟨composePage l qp (contentAt fs2 qp) mp (contentAt fs2 mp), gq, gm⟩ :: steps3,
       err3) := by
  unfold processLocs
  rw [hq]
  dsimp only
  rw [hm]
  dsimp only
  rw [hp]

/-- Unfolding one loop iteration when the QR resolve is fatal. -/
theorem processLocs_cons_errq (cfg : Config) (l : Location) (rest : List Location)
    (fs : FS) (clock : Nat) (e : String)
    (hq : getQRCode cfg fs clock l = .error e) :
    processLocs cfg (l :: rest) fs clock = (fs, clock, [], some e) := by
  unfold processLocs
  rw [hq]

/-- Unfolding one loop iteration when the map resolve is fatal. -/
theorem processLocs_cons_errm (cfg : Config) (l : Location) (rest : List Location)
    (fs : FS) (clock : Nat) (qp : String) (fs1 : FS) (c1 : Nat) (gq : Bool)
    (e : String)
    (hq : getQRCode cfg fs clock l = .ok (qp, fs1, c1, gq))
    (hm : getMap cfg fs1 c1 l = .error e) :
    processLocs cfg (l :: rest) fs clock = (fs1, c1, [], some e) := by
  unfold processLocs
  rw [hq]
  dsimp only
  rw [hm]

/-- A successful loop run makes one step per record, in order, and step
`i`'s page is composed from record `i` (with the record's own
deterministic artifact paths and whatever images the cache held). -/
theorem processLocs_shape (cfg : Config) : ∀ (locs : List Location) (fs : FS)
    (clock : Nat) (fs' : FS) (c' : Nat) (steps : List Step),
    processLocs cfg locs fs clock = (fs', c', steps, none) →
    steps.length = locs.length ∧
    ∀ i, i < locs.length → ∃ l qi mi gq gm, locs[i]? = some l ∧
      steps[i]? = some ⟨composePage l (qrPathOf cfg.cache l.Number) qi
        (mapPathOf cfg.cache l.Number) mi, gq, gm⟩ := by
  intro locs
  induction locs with
  | nil =>
    intro fs clock fs' c' steps h
    unfold processLocs at h
    simp only [Prod.mk.injEq] at h
    obtain ⟨_, _, hsteps, _⟩ := h
    subst hsteps
    exact ⟨rfl, fun i hi => absurd hi (by simp)⟩
  | cons l rest ih =>
    intro fs clock fs' c' steps h
    rcases hq : getQRCode cfg fs clock l with e | ⟨qp, fs1, c1, gq⟩
    · rw [processLocs_cons_errq cfg l rest fs clock e hq] at h
      simp at h
    · rcases hm : getMap cfg fs1 c1 l with e | ⟨mp, fs2, c2, gm⟩
      · rw [processLocs_cons_errm cfg l rest fs clock qp fs1 c1 gq e hq hm] at h
        simp at h
      · rcases hp : processLocs cfg rest fs2 c2 with ⟨fs3, c3, steps3, err3⟩
        rw [processLocs_cons_eq cfg l rest fs clock qp fs1 c1 gq mp fs2 c2 gm
              fs3 c3 steps3 err3 hq hm hp] at h
        simp only [Prod.mk.injEq] at h
        obtain ⟨hfs, hc, hsteps, herr⟩ := h
        subst hsteps
        obtain ⟨ihlen, ihnth⟩ := ih fs2 c2 fs3 c3 steps3 (by rw [hp, herr])
        constructor
        · simp [ihlen]
        · intro i hi
          cases i with
          | zero =>
            refine ⟨l, contentAt fs2 qp, contentAt fs2 mp, gq, gm, by simp, ?_⟩
            rw [getQRCode_path cfg fs clock l qp fs1 c1 gq hq] at *
            rw [getMap_path cfg fs1 c1 l mp fs2 c2 gm hm] at *
            simp
          | succ i =>
            obtain ⟨l', qi, mi, gq', gm', hl', hs'⟩ :=
              ihnth i (by simpa using Nat.lt_of_succ_lt_succ hi)
            exact ⟨l', qi, mi, gq', gm', by simpa using hl', by simpa using hs'⟩

/-! ### Claim C6 — order preservation -/

/-- C6: a successful run emits exactly one page per input record, in
input order: page `i` is composed from record `i` (its identifier, name,
coordinate text, and its deterministic artifact paths). -/
theorem c6_order_preservation (fl : Flags) (inp : RunInput)
    (locs : List Location) (eff : Effects)
    (hcsv : inp.csv = .ok locs)
    (hrun : runMain fl inp = (eff, .ok ())) :
    eff.steps.length = locs.length ∧
    ∀ i, i < locs.length → ∃ l qi mi gq gm, locs[i]? = some l ∧
      eff.steps[i]? = some ⟨composePage l (qrPathOf fl.cache l.Number) qi
        (mapPathOf fl.cache l.Number) mi, gq, gm⟩ := by
  unfold runMain at hrun
  by_cases h1 : fl.inFile = ""
  · rw [if_pos h1] at hrun
    simp at hrun
  · rw [if_neg h1] at hrun
    by_cases h2 : inp.openOk = false
    · rw [if_pos h2] at hrun
      simp at hrun
    · rw [if_neg h2] at hrun
      rw [hcsv] at hrun
      dsimp only at hrun
      rcases hmt : inp.inMtime with _ | cDate
      · rw [hmt] at hrun
        simp at hrun
      · rw [hmt] at hrun
        dsimp only at hrun
        by_cases h3 : inp.mkdirOk = false
        · rw [if_pos h3] at hrun
          simp at hrun
        · rw [if_neg h3] at hrun
          rcases hp : processLocs ⟨fl.cache, cDate, fl.force, fl.debug⟩ locs
              inp.fs inp.clock with ⟨fs', c', steps, err⟩
          rw [hp] at hrun
          cases err with
          | some e => simp at hrun
          | none =>
            dsimp only at hrun
            by_cases h4 : inp.outputOk
            · rw [if_pos h4] at hrun
              simp only [Prod.mk.injEq] at hrun
              obtain ⟨heff, _⟩ := hrun
              subst heff
              exact processLocs_shape ⟨fl.cache, cDate, fl.force, fl.debug⟩
                locs inp.fs inp.clock fs' c' steps hp
            · rw [if_neg h4] at hrun
              simp at hrun

/-- Witness for C6: the concrete two-record run succeeds and yields two
pages, in order, composed from the two records. -/
theorem c6_order_preservation_witness :
    ∃ eff : Effects, runMain c6Flags c6Input = (eff, .ok ()) ∧
      (eff.steps.length = c6Locs.length ∧
       ∀ i, i < c6Locs.length → ∃ l qi mi gq gm, c6Locs[i]? = some l ∧
         eff.steps[i]? = some ⟨composePage l (qrPathOf "cache" l.Number) qi
           (mapPathOf "cache" l.Number) mi, gq, gm⟩) :=
  ⟨_, rfl, c6_order_preservation c6Flags c6Input c6Locs _ rfl rfl⟩

/-! ### Claim C9 — the altname and comment columns never influence output -/

/-- `getQRCode` reads only the identifier and the coordinates. -/
theorem getQRCode_renderEq (cfg : Config) (fs : FS) (clock : Nat)
    (l1 l2 : Location) (h : RenderEq l1 l2) :
    getQRCode cfg fs clock l1 = getQRCode cfg fs clock l2 := by
  obtain ⟨h1, _, h3, h4⟩ := h
  unfold getQRCode qrArtOf geoUri
  rw [h1, h3, h4]

/-- `getMap` reads only the identifier and the coordinates. -/
theorem getMap_renderEq (cfg : Config) (fs : FS) (clock : Nat)
    (l1 l2 : Location) (h : RenderEq l1 l2) :
    getMap cfg fs clock l1 = getMap cfg fs clock l2 := by
  obtain ⟨h1, _, h3, h4⟩ := h
  unfold getMap mapArtOf
  rw [h1, h3, h4]

/-- The page composer reads only the identifier, the display name and the
coordinates. -/
theorem composePage_renderEq (l1 l2 : Location) (h : RenderEq l1 l2)
    (qp : String) (qi : Option Art) (mp : String) (mi : Option Art) :
    composePage l1 qp qi mp mi = composePage l2 qp qi mp mi := by
  obtain ⟨h1, h2, h3, h4⟩ := h
  unfold composePage coordsTextOf trCp874
  rw [h1, h2, h3, h4]

/-- The whole loop is unchanged when every record is replaced by one that
agrees on the rendering-relevant fields. -/
theorem processLocs_renderEq (cfg : Config) {locs1 locs2 : List Location}
    (hrel : List.Forall₂ RenderEq locs1 locs2) :
    ∀ fs clock, processLocs cfg locs1 fs clock = processLocs cfg locs2 fs clock := by
  induction hrel with
  | nil => intro fs clock; rfl
  | @cons a b l₁ l₂ h1 h2 ih =>
    intro fs clock
    have hq1 : getQRCode cfg fs clock a = getQRCode cfg fs clock b :=
      getQRCode_renderEq cfg fs clock a b h1
    rcases hq : getQRCode cfg fs clock b with e | ⟨qp, fs1, c1, gq⟩
    · rw [processLocs_cons_errq cfg a l₁ fs clock e (by rw [hq1]; exact hq),
          processLocs_cons_errq cfg b l₂ fs clock e hq]
    · have hm1 : getMap cfg fs1 c1 a = getMap cfg fs1 c1 b :=
        getMap_renderEq cfg fs1 c1 a b h1
      rcases hm : getMap cfg fs1 c1 b with e | ⟨mp, fs2, c2, gm⟩
      · rw [processLocs_cons_errm cfg a l₁ fs clock qp fs1 c1 gq e
              (by rw [hq1]; exact hq) (by rw [hm1]; exact hm),
            processLocs_cons_errm cfg b l₂ fs clock qp fs1 c1 gq e hq hm]
      · rcases hp2 : processLocs cfg l₂ fs2 c2 with ⟨fs3, c3, s3, e3⟩
        have hp1 : processLocs cfg l₁ fs2 c2 = (fs3, c3, s3, e3) := by
          rw [ih fs2 c2]
          exact hp2
        rw [processLocs_cons_eq cfg a l₁ fs clock qp fs1 c1 gq mp fs2 c2 gm
              fs3 c3 s3 e3 (by rw [hq1]; exact hq) (by rw [hm1]; exact hm) hp1,
            processLocs_cons_eq cfg b l₂ fs clock qp fs1 c1 gq mp fs2 c2 gm
              fs3 c3 s3 e3 hq hm hp2,
            composePage_renderEq a b h1]

/-- C9: two runs whose inputs differ only in the alternate-name and
comment columns (all other run inputs equal) produce identical results:
the same pages, the same cache writes, the same exit status. -/
theorem c9_altname_comments_no_influence (fl : Flags) (inp1 inp2 : RunInput)
    (locs1 locs2 : List Location)
    (hcsv1 : inp1.csv = .ok locs1) (hcsv2 : inp2.csv = .ok locs2)
    (hrel : List.Forall₂ RenderEq locs1 locs2)
    (hopen : inp1.openOk = inp2.openOk) (hmt : inp1.inMtime = inp2.inMtime)
    (hmk : inp1.mkdirOk = inp2.mkdirOk) (hfs : inp1.fs = inp2.fs)
    (hck : inp1.clock = inp2.clock) (hout : inp1.outputOk = inp2.outputOk) :
    runMain fl inp1 = runMain fl inp2 := by
  unfold runMain
  rw [hopen, hmt, hmk, hfs, hck, hout, hcsv1, hcsv2]
  dsimp only
  by_cases h1 : fl.inFile = ""
  · simp [h1]
  · by_cases h2 : inp2.openOk = false
    · simp [h1, h2]
    · rcases hmt2 : inp2.inMtime with _ | cDate
      · simp [h1, h2, hmt2]
      · by_cases h3 : inp2.mkdirOk = false
        · simp [h1, h2, hmt2, h3]
        · have hPL := processLocs_renderEq
            ⟨fl.cache, cDate, fl.force, fl.debug⟩ hrel inp2.fs inp2.clock
          simp [h1, h2, hmt2, h3, hPL]

/-- Witness for C9: one record with altname/comment filled, one with them
blank — identical run results. -/
theorem c9_altname_comments_no_influence_witness :
    runMain c6Flags c9InputA = runMain c6Flags c9InputB :=
  c9_altname_comments_no_influence c6Flags c9InputA c9InputB [c9LocA] [c9LocB]
    rfl rfl (.cons ⟨rfl, rfl, rfl, rfl⟩ .nil) rfl rfl rfl rfl rfl rfl

/-! ### Claim C10 — duplicate identifiers within one run -/

/-- Looking up a cons cell. -/
theorem fsFind_cons (q : String) (e : Entry) (es : List (String × Entry))
    (p : String) :
    fsFind ((q, e) :: es) p = if q = p then some e else fsFind es p := rfl

/-- Writing a fresh file at the current clock preserves the invariant at
the next instant. -/
theorem Inv_cons_write (cfg : Config) (fs : FS) (clock : Nat)
    (hInv : Inv cfg fs clock) (p : String) (a : Art) :
    Inv cfg ⟨(p, .file clock a) :: fs.entries, fs.badWrite⟩ (clock + 1) := by
  obtain ⟨hc, hb, he⟩ := hInv
  refine ⟨by omega, hb, ?_⟩
  intro p' e' h'
  rw [fsFind_cons] at h'
  by_cases hpq : p = p'
  · rw [if_pos hpq] at h'
    injection h' with h'
    exact ⟨clock, a, h'.symm, hc, by omega⟩
  · rw [if_neg hpq] at h'
    obtain ⟨m, a', he', hm1, hm2⟩ := he p' e' h'
    exact ⟨m, a', he', hm1, by omega⟩

/-- One QR resolve under the invariant (force clear): it succeeds, the
invariant is preserved, existing entries survive unchanged, and at most
the record's own QR path is added. -/
theorem resolve_step_qr (cfg : Config) (fs : FS) (clock : Nat) (l : Location)
    (hf : cfg.force = false) (hInv : Inv cfg fs clock) :
    ∃ fs1 c1 g,
      getQRCode cfg fs clock l = .ok (qrPathOf cfg.cache l.Number, fs1, c1, g) ∧
      Inv cfg fs1 c1 ∧ clock ≤ c1 ∧
      (∀ p e, fsFind fs.entries p = some e → fsFind fs1.entries p = some e) ∧
      (∀ p e, fsFind fs1.entries p = some e →
        fsFind fs.entries p = some e ∨ p = qrPathOf cfg.cache l.Number) := by
  obtain ⟨hc, hb, he⟩ := hInv
  rcases hfq : fsFind fs.entries (qrPathOf cfg.cache l.Number) with _ | e
  · refine ⟨⟨(qrPathOf cfg.cache l.Number, .file clock (qrArtOf l)) :: fs.entries,
        fs.badWrite⟩, clock + 1, true,
      getQRCode_absent cfg fs clock l hfq (by rw [hb]; simp),
      Inv_cons_write cfg fs clock ⟨hc, hb, he⟩ _ _, by omega, ?_, ?_⟩
    · intro p e h
      rw [fsFind_cons]
      by_cases hpq : qrPathOf cfg.cache l.Number = p
      · subst hpq
        rw [hfq] at h
        exact absurd h (by simp)
      · rw [if_neg hpq]
        exact h
    · intro p e h
      rw [fsFind_cons] at h
      by_cases hpq : qrPathOf cfg.cache l.Number = p
      · exact Or.inr hpq.symm
      · rw [if_neg hpq] at h
        exact Or.inl h
  · obtain ⟨m, a, rfl, hm1, hm2⟩ := he _ _ hfq
    exact ⟨fs, clock, false, getQRCode_fresh cfg fs clock l m a hfq hm1 hf,
      ⟨hc, hb, he⟩, le_refl _, fun p e h => h, fun p e h => Or.inl h⟩

/-- One map resolve under the invariant: as for the QR resolve, and with
no condition on the force flag (which `getMap` ignores). -/
theorem resolve_step_map (cfg : Config) (fs : FS) (clock : Nat) (l : Location)
    (hInv : Inv cfg fs clock) :
    ∃ fs1 c1 g,
      getMap cfg fs clock l = .ok (mapPathOf cfg.cache l.Number, fs1, c1, g) ∧
      Inv cfg fs1 c1 ∧ clock ≤ c1 ∧
      (∀ p e, fsFind fs.entries p = some e → fsFind fs1.entries p = some e) ∧
      (∀ p e, fsFind fs1.entries p = some e →
        fsFind fs.entries p = some e ∨ p = mapPathOf cfg.cache l.Number) := by
  obtain ⟨hc, hb, he⟩ := hInv
  rcases hfq : fsFind fs.entries (mapPathOf cfg.cache l.Number) with _ | e
  · refine ⟨⟨(mapPathOf cfg.cache l.Number, .file clock (mapArtOf l)) :: fs.entries,
        fs.badWrite⟩, clock + 1, true,
      getMap_absent cfg fs clock l hfq (by rw [hb]; simp),
      Inv_cons_write cfg fs clock ⟨hc, hb, he⟩ _ _, by omega, ?_, ?_⟩
    · intro p e h
      rw [fsFind_cons]
      by_cases hpq : mapPathOf cfg.cache l.Number = p
      · subst hpq
        rw [hfq] at h
        exact absurd h (by simp)
      · rw [if_neg hpq]
        exact h
    · intro p e h
      rw [fsFind_cons] at h
      by_cases hpq : mapPathOf cfg.cache l.Number = p
      · exact Or.inr hpq.symm
      · rw [if_neg hpq] at h
        exact Or.inl h
  · obtain ⟨m, a, rfl, hm1, hm2⟩ := he _ _ hfq
    exact ⟨fs, clock, false, getMap_fresh cfg fs clock l m a hfq hm1,
      ⟨hc, hb, he⟩, le_refl _, fun p e h => h, fun p e h => Or.inl h⟩

/-- Running the loop under the invariant (force clear): it never fails,
preserves the invariant, makes one step per record, keeps every existing
entry, and only adds entries at the processed records' own paths. -/
theorem processLocs_inv (cfg : Config) (hf : cfg.force = false) :
    ∀ (locs : List Location) (fs : FS) (clock : Nat), Inv cfg fs clock →
    ∃ fs' c' steps, processLocs cfg locs fs clock = (fs', c', steps, none) ∧
      Inv cfg fs' c' ∧ clock ≤ c' ∧ steps.length = locs.length ∧
      (∀ p e, fsFind fs.entries p = some e → fsFind fs'.entries p = some e) ∧
      (∀ p e, fsFind fs'.entries p = some e →
        fsFind fs.entries p = some e ∨
        ∃ l, l ∈ locs ∧
          (p = qrPathOf cfg.cache l.Number ∨ p = mapPathOf cfg.cache l.Number)) := by
  intro locs
  induction locs with
  | nil =>
    intro fs clock hInv
    exact ⟨fs, clock, [], rfl, hInv, le_refl _, rfl,
      fun p e h => h, fun p e h => Or.inl h⟩
  | cons l rest ih =>
    intro fs clock hInv
    obtain ⟨fs1, c1, g1, hq, hInv1, hle1, hmono1, hdom1⟩ :=
      resolve_step_qr cfg fs clock l hf hInv
    obtain ⟨fs2, c2, g2, hm, hInv2, hle2, hmono2, hdom2⟩ :=
      resolve_step_map cfg fs1 c1 l hInv1
    obtain ⟨fs3, c3, steps3, hp, hInv3, hle3, hlen3, hmono3, hdom3⟩ :=
      ih fs2 c2 hInv2
    refine ⟨fs3, c3,
      ⟨composePage l (qrPathOf cfg.cache l.Number)
         (contentAt fs2 (qrPathOf cfg.cache l.Number))
         (mapPathOf cfg.cache l.Number)
         (contentAt fs2 (mapPathOf cfg.cache l.Number)), g1, g2⟩ :: steps3,
      processLocs_cons_eq cfg l rest fs clock _ fs1 c1 g1 _ fs2 c2 g2
        fs3 c3 steps3 none hq hm hp,
      hInv3, by omega, by simp [hlen3], ?_, ?_⟩
    · intro p e h
      exact hmono3 p e (hmono2 p e (hmono1 p e h))
    · intro p e h
      rcases hdom3 p e h with h3 | ⟨l', hl', hor⟩
      · rcases hdom2 p e h3 with h2 | hp2
        · rcases hdom1 p e h2 with h1 | hp1
          · exact Or.inl h1
          · exact Or.inr ⟨l, List.mem_cons_self .., Or.inl hp1⟩
        · exact Or.inr ⟨l, List.mem_cons_self .., Or.inr hp2⟩
      · exact Or.inr ⟨l', List.mem_cons_of_mem l hl', hor⟩

/-- Splitting the loop at a list append, when the first part succeeds. -/
theorem processLocs_append_ok (cfg : Config) : ∀ (xs : List Location) (fs : FS)
    (c : Nat) (fs1 : FS) (c1 : Nat) (s1 : List Step) (ys : List Location)
    (fs2 : FS) (c2 : Nat) (s2 : List Step) (e2 : Option String),
    processLocs cfg xs fs c = (fs1, c1, s1, none) →
    processLocs cfg ys fs1 c1 = (fs2, c2, s2, e2) →
    processLocs cfg (xs ++ ys) fs c = (fs2, c2, s1 ++ s2, e2) := by
  intro xs
  induction xs with
  | nil =>
    intro fs c fs1 c1 s1 ys fs2 c2 s2 e2 h1 h2
    unfold processLocs at h1
    simp only [Prod.mk.injEq] at h1
    obtain ⟨hf, hc, hs, _⟩ := h1
    subst hf
    subst hc
    subst hs
    simpa using h2
  | cons l xs ih =>
    intro fs c fs1 c1 s1 ys fs2 c2 s2 e2 h1 h2
    rcases hq : getQRCode cfg fs c l with e | ⟨qp, fsA, cA, gq⟩
    · rw [processLocs_cons_errq cfg l xs fs c e hq] at h1
      simp at h1
    · rcases hm : getMap cfg fsA cA l with e | ⟨mp, fsB, cB, gm⟩
      · rw [processLocs_cons_errm cfg l xs fs c qp fsA cA gq e hq hm] at h1
        simp at h1
      · rcases hp : processLocs cfg xs fsB cB with ⟨fsC, cC, sC, eC⟩
        rw [processLocs_cons_eq cfg l xs fs c qp fsA cA gq mp fsB cB gm
              fsC cC sC eC hq hm hp] at h1
        simp only [Prod.mk.injEq] at h1
        obtain ⟨hfs, hc, hs, he⟩ := h1
        subst hfs
        subst hc
        subst he
        rw [List.cons_append]
        rw [processLocs_cons_eq cfg l (xs ++ ys) fs c qp fsA cA gq mp fsB cB gm
              fs2 c2 (sC ++ s2) e2 hq hm
              (ih fsB cB fsC cC sC ys fs2 c2 s2 e2 hp h2)]
        rw [← hs]
        simp

/-- C10: when two records of one run share an identifier, both resolve to
the same artifact paths; starting from an empty cache with the force flag
clear (and no earlier record occupying the first record's paths), the
earlier record generates both artifacts, and the later record's resolves
reuse those just-written files — their modification times are strictly
after the baseline — so the later record's page embeds the code and map
images generated from the earlier record's coordinates, with no
regeneration at the later record. -/
theorem c10_duplicate_identifier_reuse (cfg : Config)
    (pre mid post : List Location) (li lj : Location) (clock0 : Nat)
    (hforce : cfg.force = false)
    (hclock : cfg.cDate < clock0)
    (hnum : lj.Number = li.Number)
    (hpre : ∀ l ∈ pre,
      qrPathOf cfg.cache l.Number ≠ qrPathOf cfg.cache li.Number ∧
      mapPathOf cfg.cache l.Number ≠ qrPathOf cfg.cache li.Number ∧
      qrPathOf cfg.cache l.Number ≠ mapPathOf cfg.cache li.Number ∧
      mapPathOf cfg.cache l.Number ≠ mapPathOf cfg.cache li.Number) :
    qrPathOf cfg.cache lj.Number = qrPathOf cfg.cache li.Number ∧
    mapPathOf cfg.cache lj.Number = mapPathOf cfg.cache li.Number ∧
    ∃ fs' c' steps,
      processLocs cfg (pre ++ li :: (mid ++ lj :: post)) emptyFS clock0 =
        (fs', c', steps, none) ∧
      steps[pre.length + (1 + mid.length)]? =
        some ⟨composePage lj (qrPathOf cfg.cache li.Number) (some (qrArtOf li))
               (mapPathOf cfg.cache li.Number) (some (mapArtOf li)),
              false, false⟩ := by
  have hqpj : qrPathOf cfg.cache lj.Number = qrPathOf cfg.cache li.Number := by
    rw [hnum]
  have hmpj : mapPathOf cfg.cache lj.Number = mapPathOf cfg.cache li.Number := by
    rw [hnum]
  refine ⟨hqpj, hmpj, ?_⟩
  have hInv0 : Inv cfg emptyFS clock0 := by
    refine ⟨hclock, rfl, ?_⟩
    intro p e h
    simp [emptyFS, fsFind] at h
  obtain ⟨fsA, cA, stepsA, hpA, hInvA, hleA, hlenA, hmonoA, hdomA⟩ :=
    processLocs_inv cfg hforce pre emptyFS clock0 hInv0
  have absentQ : fsFind fsA.entries (qrPathOf cfg.cache li.Number) = none := by
    rcases hA : fsFind fsA.entries (qrPathOf cfg.cache li.Number) with _ | e
    · rfl
    · exfalso
      rcases hdomA _ e hA with h0 | ⟨l', hl', hor⟩
      · simp [emptyFS, fsFind] at h0
      · rcases hor with h | h
        · exact (hpre l' hl').1 h.symm
        · exact (hpre l' hl').2.1 h.symm
  have absentM : fsFind fsA.entries (mapPathOf cfg.cache li.Number) = none := by
    rcases hA : fsFind fsA.entries (mapPathOf cfg.cache li.Number) with _ | e
    · rfl
    · exfalso
      rcases hdomA _ e hA with h0 | ⟨l', hl', hor⟩
      · simp [emptyFS, fsFind] at h0
      · rcases hor with h | h
        · exact (hpre l' hl').2.2.1 h.symm
        · exact (hpre l' hl').2.2.2 h.symm
  have hbadA : fsA.badWrite = [] := hInvA.2.1
  have hqi := getQRCode_absent cfg fsA cA li absentQ (by rw [hbadA]; simp)
  have hqmne : qrPathOf cfg.cache li.Number ≠ mapPathOf cfg.cache li.Number :=
    qrPathOf_ne_mapPathOf cfg.cache li.Number
  have absentMB :
      fsFind ((qrPathOf cfg.cache li.Number, Entry.file cA (qrArtOf li))
          :: fsA.entries) (mapPathOf cfg.cache li.Number) = none := by
    rw [fsFind_cons, if_neg hqmne]
    exact absentM
  have hmi := getMap_absent cfg
    ⟨(qrPathOf cfg.cache li.Number, .file cA (qrArtOf li)) :: fsA.entries,
     fsA.badWrite⟩ (cA + 1) li absentMB (by rw [hbadA]; simp)
  have hInvC : Inv cfg
      ⟨(mapPathOf cfg.cache li.Number, .file (cA + 1) (mapArtOf li)) ::
        (qrPathOf cfg.cache li.Number, .file cA (qrArtOf li)) :: fsA.entries,
       fsA.badWrite⟩ (cA + 1 + 1) :=
    Inv_cons_write cfg
      ⟨(qrPathOf cfg.cache li.Number, .file cA (qrArtOf li)) :: fsA.entries,
       fsA.badWrite⟩ (cA + 1)
      (Inv_cons_write cfg fsA cA hInvA _ _) _ _
  obtain ⟨fsD, cD, stepsD, hpD, hInvD, hleD, hlenD, hmonoD, hdomD⟩ :=
    processLocs_inv cfg hforce mid _ _ hInvC
  have hfqD : fsFind fsD.entries (qrPathOf cfg.cache li.Number) =
      some (.file cA (qrArtOf li)) := by
    apply hmonoD
    rw [fsFind_cons, if_neg (fun h => hqmne h.symm), fsFind_cons, if_pos rfl]
  have hfmD : fsFind fsD.entries (mapPathOf cfg.cache li.Number) =
      some (.file (cA + 1) (mapArtOf li)) := by
    apply hmonoD
    rw [fsFind_cons, if_pos rfl]
  have hcAbase : cfg.cDate < cA := Nat.lt_of_lt_of_le hInv0.1 hleA
  have hqj := getQRCode_fresh cfg fsD cD lj cA (qrArtOf li)
    (by rw [hqpj]; exact hfqD) hcAbase hforce
  have hmj := getMap_fresh cfg fsD cD lj (cA + 1) (mapArtOf li)
    (by rw [hmpj]; exact hfmD) (by omega)
  obtain ⟨fsE, cE, stepsE, hpE, hInvE, hleE, hlenE, hmonoE, hdomE⟩ :=
    processLocs_inv cfg hforce post fsD cD hInvD
  have hcq : contentAt fsD (qrPathOf cfg.cache lj.Number) = some (qrArtOf li) := by
    unfold contentAt
    rw [hqpj, hfqD]
  have hcm : contentAt fsD (mapPathOf cfg.cache lj.Number) = some (mapArtOf li) := by
    unfold contentAt
    rw [hmpj, hfmD]
  have hLj : processLocs cfg (lj :: post) fsD cD =
      (fsE, cE,
       ⟨composePage lj (qrPathOf cfg.cache li.Number) (some (qrArtOf li))
          (mapPathOf cfg.cache li.Number) (some (mapArtOf li)),
        false, false⟩ :: stepsE, none) := by
    have h0 := processLocs_cons_eq cfg lj post fsD cD _ fsD cD false _ fsD cD false
      fsE cE stepsE none hqj hmj hpE
    rw [hcq, hcm, hqpj, hmpj] at h0
    exact h0
  have hMid := processLocs_append_ok cfg mid _ _ fsD cD stepsD (lj :: post)
    fsE cE _ none hpD hLj
  have hLi := processLocs_cons_eq cfg li (mid ++ lj :: post) fsA cA _
    ⟨(qrPathOf cfg.cache li.Number, .file cA (qrArtOf li)) :: fsA.entries,
     fsA.badWrite⟩ (cA + 1) true _
    ⟨(mapPathOf cfg.cache li.Number, .file (cA + 1) (mapArtOf li)) ::
      (qrPathOf cfg.cache li.Number, .file cA (qrArtOf li)) :: fsA.entries,
     fsA.badWrite⟩ (cA + 1 + 1) true fsE cE _ none hqi hmi hMid
  have hAll := processLocs_append_ok cfg pre emptyFS clock0 fsA cA stepsA
    (li :: (mid ++ lj :: post)) fsE cE _ none hpA hLi
  refine ⟨fsE, cE, _, hAll, ?_⟩
  rw [List.getElem?_append_right (by rw [hlenA]; omega)]
  rw [show pre.length + (1 + mid.length) - stepsA.length = mid.length + 1 by
        rw [hlenA]; omega]
  rw [List.getElem?_cons_succ]
  rw [List.getElem?_append_right (by rw [hlenD])]
  rw [show mid.length - stepsD.length = 0 by rw [hlenD]; omega]
  simp

/-- Witness for C10: a two-record run with the duplicate identifier `A`;
the second page embeds the first record's artifacts and regenerates
nothing. -/
theorem c10_duplicate_identifier_reuse_witness :
    qrPathOf "cache" c10Lj.Number = qrPathOf "cache" c10Li.Number ∧
    mapPathOf "cache" c10Lj.Number = mapPathOf "cache" c10Li.Number ∧
    ∃ fs' c' steps,
      processLocs c10Cfg ([] ++ c10Li :: ([] ++ c10Lj :: [])) emptyFS 1 =
        (fs', c', steps, none) ∧
      steps[0 + (1 + 0)]? =
        some ⟨composePage c10Lj (qrPathOf "cache" c10Li.Number)
               (some (qrArtOf c10Li)) (mapPathOf "cache" c10Li.Number)
               (some (mapArtOf c10Li)), false, false⟩ :=
  c10_duplicate_identifier_reuse c10Cfg [] [] [] c10Li c10Lj 1 rfl (by decide)
    rfl (by intro l hl; exact absurd hl (by simp))

end CrjwMaps
